import Mathlib

/-!
Shallow embedding of the Azure cleaner of giantswarm/aws-ci-cleaner
(package `azure`: `resourcegroup.go` and `delegatedns.go`).

Modelling conventions:
* Go strings are embedded as `List Char` (`GoStr`); `str` injects Lean
  string literals.
* Go `error` values are embedded by their message string (`GoStr`), since
  the only inspection the code performs is `strings.Contains(err.Error(), …)`;
  `microerror.Mask` only wraps an error with a stack and is embedded as the
  identity.
* The Azure SDK clients and the external DNS resolver are oracles collected
  in the `Cleaner` structure, mirroring the receiver struct of the Go code.
  Each oracle maps the arguments the code passes to the observable outcome
  of the remote call.
* Logging is not modelled (it does not influence control flow).
* The scan loops return, besides the Go function's `error` result, the trace
  of group / record names for which a delete call was issued, in order; this
  is the observation of the loops' side effects.
* `time.Time` values are embedded as `GoTime`, carrying the RFC3339Nano
  rendering that `groupHasActivity` interpolates into the filter string.
-/

namespace AzureCleaner

/-- Go strings, embedded as lists of characters. -/
abbrev GoStr := List Char

/-- Injection of Lean string literals into `GoStr`. -/
def str (s : String) : GoStr := s.toList

/-- A `time.Time`, observed through its RFC3339Nano formatting (the only use
the embedded code makes of times). -/
structure GoTime where
  rfc3339nano : GoStr
deriving DecidableEq

/-- Constant `gracePeriod = 90 * time.Minute` (nanoseconds), from
`resourcegroup.go`. -/
def gracePeriod : Nat := 90 * 60 * 1000000000

/-- Constant `dnsFailureError = "SERVFAIL"` from `delegatedns.go`. -/
def dnsFailureError : GoStr := str "SERVFAIL"

/-- Constant `dnsServerAddress = "8.8.8.8"` from `delegatedns.go`. -/
def dnsServerAddress : GoStr := str "8.8.8.8"

/-- Constant `e2eterraformPrefix = "e2eterraform"` from `delegatedns.go`. -/
def e2eterraformPrefix : GoStr := str "e2eterraform"

/-- Constant `resourceGroup = "root_dns_zone_rg"` from `delegatedns.go`. -/
def resourceGroup : GoStr := str "root_dns_zone_rg"

/-- Constant `zoneName = "azure.gigantic.io"` from `delegatedns.go`. -/
def zoneName : GoStr := str "azure.gigantic.io"

/-- `http.StatusNotFound`. -/
def httpStatusNotFound : Nat := 404

/-- Outcome of `groupsClient.Delete` followed by `groupsClient.DeleteResponder`
for one group: the error of the `Delete` call itself, then the responder's
HTTP status (`none` embeds `res.Response == nil`) and the responder's error. -/
structure GroupsDeleteResult where
  callErr : Option GoStr
  respStatusCode : Option Nat
  respErr : Option GoStr
deriving DecidableEq

/-- Outcome of `resolver.LookupHost`: the addresses and the error (by
message; `none` embeds a nil error). -/
structure LookupOutcome where
  addresses : List GoStr
  err : Option GoStr
deriving DecidableEq

/-- The `dns_resolver.DnsResolver` configuration the code builds: server list
and `RetryTimes`. -/
structure DnsResolver where
  servers : List GoStr
  retryTimes : Nat
deriving DecidableEq

/-- DNS record types; the code only ever deletes `dns.NS` records. -/
inductive RecordType where
  | NS
deriving DecidableEq

/-- A `dns.RecordSet`, as used by the code: its name and etag. -/
structure DnsRecord where
  name : GoStr
  etag : GoStr
deriving DecidableEq

/-- The `Cleaner` receiver: oracles for the Azure SDK clients and the DNS
resolver library.  Each field maps the arguments the code passes to the
observable outcome of the corresponding remote call:
* `activityLogsList filter` : `activityLogsClient.ListComplete(ctx, filter, "")`,
  returning either the listing error or `eventIter.NotDone()` (whether any
  event matched);
* `groupsDelete name` : the delete call plus responder for a resource group;
* `lookupHost resolver host` : `resolver.LookupHost(host)`;
* `dnsRecordSetsDelete rg zone name typ etag` :
  `dnsRecordSetsClient.Delete(ctx, rg, zone, name, typ, etag)`. -/
structure Cleaner where
  activityLogsList : GoStr → Except GoStr Bool
  groupsDelete : GoStr → GroupsDeleteResult
  lookupHost : DnsResolver → GoStr → LookupOutcome
  dnsRecordSetsDelete : GoStr → GoStr → GoStr → RecordType → GoStr → Option GoStr

/-! ## resourcegroup.go -/

/-- `groupHasTestNamePrefix`: the group name has prefix `"ci-"` or `"e2e"`. -/
def groupHasTestNamePrefix (name : GoStr) : Bool :=
  [str "ci-", str "e2e"].any fun p => p.isPrefixOf name

/-- The filter string `groupHasActivity` builds:
`eventTimestamp ge '<since RFC3339Nano>' and resourceGroupName eq '<name>'`. -/
def activityFilter (since : GoTime) (name : GoStr) : GoStr :=
  str "eventTimestamp ge '" ++ since.rfc3339nano ++
    str "' and resourceGroupName eq '" ++ name ++ str "'"

/-- `groupHasActivity`: query the activity log with the filter and report
whether the event iterator is not done (some event matched). -/
def groupHasActivity (c : Cleaner) (name : GoStr) (since : GoTime) :
    Except GoStr Bool :=
  c.activityLogsList (activityFilter since name)

/-- `groupShouldBeDeleted`: a group is to be deleted when its name has a test
prefix and the activity query reports no activity; a query error is
propagated. -/
def groupShouldBeDeleted (c : Cleaner) (name : GoStr) (since : GoTime) :
    Except GoStr Bool :=
  if groupHasTestNamePrefix name then
    match groupHasActivity c name since with
    | .error e => .error e
    | .ok hasActivity => .ok (!hasActivity)
  else
    .ok false

/-- The loop body of `cleanResourceGroup` over the listed group names.
Returns the names for which a delete call was issued, and the function's
`error` result (`none` = nil).  Per the source: a `groupShouldBeDeleted`
error skips the group; a failed delete call, or a responder error whose
status is not 404, aborts the whole scan with that error; a 404 responder
status falls through as success. -/
def cleanResourceGroup (c : Cleaner) (since : GoTime) (groups : List GoStr) :
    List GoStr × Option GoStr :=
  match groups with
  | [] => ([], none)
  | g :: rest =>
    match groupShouldBeDeleted c g since with
    | .error _ => cleanResourceGroup c since rest
    | .ok false => cleanResourceGroup c since rest
    | .ok true =>
      match (c.groupsDelete g).callErr with
      | some e => ([g], some e)
      | none =>
        if (c.groupsDelete g).respStatusCode = some httpStatusNotFound then
          (g :: (cleanResourceGroup c since rest).1,
            (cleanResourceGroup c since rest).2)
        else
          match (c.groupsDelete g).respErr with
          | some e => ([g], some e)
          | none =>
            (g :: (cleanResourceGroup c since rest).1,
              (cleanResourceGroup c since rest).2)

/-! ## delegatedns.go -/

/-- Matcher for the tail of the Go regexp
`^e2e.*\.(westeurope|germanywestcentral)$` after the literal `e2e`, under RE2
semantics: `.` matches any character except a newline, and the match must
reach the end of the text.  At each position the remainder either is one of
the two literal suffixes, or one non-newline character is consumed. -/
def matchDotStarRegion : GoStr → Bool
  | [] => false
  | c :: rest =>
    (c :: rest = str ".westeurope" || c :: rest = str ".germanywestcentral")
      || (c ≠ '\n' && matchDotStarRegion rest)

/-- `regexp.MustCompile('^e2e.*\.(westeurope|germanywestcentral)$').Match(s)`:
anchored at both ends, so `s` is `e2e`, then any newline-free text, then a
literal dot and one of the two region names. -/
def regexpMatchCIRecord (s : GoStr) : Bool :=
  (str "e2e").isPrefixOf s && matchDotStarRegion (s.drop 3)

/-- `isCIRecord`: the record name has prefix `e2eterraform`, or matches the
regexp `^e2e.*\.(westeurope|germanywestcentral)$`. -/
def isCIRecord (s : GoStr) : Bool :=
  if e2eterraformPrefix.isPrefixOf s then
    true
  else
    regexpMatchCIRecord s

/-- `strings.Contains(s, substr)`: `substr` occurs somewhere within `s`. -/
def strContains : GoStr → GoStr → Bool
  | [], substr => substr.isEmpty
  | s@(_ :: rest), substr => substr.isPrefixOf s || strContains rest substr

/-- The hostname `resolvesApiName` builds: `api.<name>.azure.gigantic.io`. -/
def apiHostName (name : GoStr) : GoStr :=
  str "api." ++ name ++ str "." ++ zoneName

/-- The resolver the code constructs: `dns_resolver.New([]{"8.8.8.8"})` with
`RetryTimes = 5`. -/
def defaultResolver : DnsResolver :=
  { servers := [dnsServerAddress], retryTimes := 5 }

/-- `resolvesApiName`: look up `api.<name>.azure.gigantic.io`.  A lookup
error whose message does not contain `SERVFAIL` is returned as an error;
otherwise the result is whether at least one address was returned. -/
def resolvesApiName (c : Cleaner) (name : GoStr) : Except GoStr Bool :=
  let full := apiHostName name
  let r := c.lookupHost defaultResolver full
  match r.err with
  | some e =>
    if ! strContains e dnsFailureError then
      .error e
    else
      .ok (decide (r.addresses.length > 0))
  | none => .ok (decide (r.addresses.length > 0))

/-- `dnsRecordShouldBeDeleted`: non-CI records are kept; a resolution error
is logged as a warning and the record kept, with a nil error returned; an
eligible record is to be deleted exactly when the API name does not
resolve.  The `since` argument is unused by the source. -/
def dnsRecordShouldBeDeleted (c : Cleaner) (dnsRecord : DnsRecord)
    (since : GoTime) : Except GoStr Bool :=
  if isCIRecord dnsRecord.name then
    match resolvesApiName c dnsRecord.name with
    | .error _ => .ok false
    | .ok resolves => .ok (!resolves)
  else
    .ok false

/-- `deleteRecord`: delete the NS record set in the fixed resource group and
zone, passing the record's name and etag. -/
def deleteRecord (c : Cleaner) (dnsRecord : DnsRecord) : Option GoStr :=
  c.dnsRecordSetsDelete resourceGroup zoneName dnsRecord.name RecordType.NS
    dnsRecord.etag

/-- The loop of `cleanDelegateDNSRecords` over the listed records, threading
the `lastError` variable.  Returns the names for which a delete call was
issued, and the loop's final `lastError`.  Per the source: a
`dnsRecordShouldBeDeleted` error records the error and skips the record; a
failed delete records the error and continues; nothing aborts the loop. -/
def cleanDelegateDNSRecordsGo (c : Cleaner) (since : GoTime) :
    List DnsRecord → Option GoStr → List GoStr × Option GoStr
  | [], lastError => ([], lastError)
  | r :: rest, lastError =>
    match dnsRecordShouldBeDeleted c r since with
    | .error e => cleanDelegateDNSRecordsGo c since rest (some e)
    | .ok false => cleanDelegateDNSRecordsGo c since rest lastError
    | .ok true =>
      match deleteRecord c r with
      | some e =>
        (r.name :: (cleanDelegateDNSRecordsGo c since rest (some e)).1,
          (cleanDelegateDNSRecordsGo c since rest (some e)).2)
      | none =>
        (r.name :: (cleanDelegateDNSRecordsGo c since rest lastError).1,
          (cleanDelegateDNSRecordsGo c since rest lastError).2)

/-- `cleanDelegateDNSRecords`: run the loop with `lastError` initially nil;
the accumulated `lastError` is the function's returned error. -/
def cleanDelegateDNSRecords (c : Cleaner) (since : GoTime)
    (records : List DnsRecord) : List GoStr × Option GoStr :=
  cleanDelegateDNSRecordsGo c since records none

/-! ## Specification-side definitions -/

/-- Formalisation of the specification's anchored pattern
`^e2e.*\.(westeurope|germanywestcentral)$`: the string is the literal `e2e`,
then arbitrary newline-free text, then a literal dot followed by one of the
two region names, with nothing after.  Stated independently of the matcher
embedded from the source, so that the two can be compared. -/
def MatchesE2ERegex (s : GoStr) : Prop :=
  ∃ mid reg : GoStr,
    (reg = str "westeurope" ∨ reg = str "germanywestcentral") ∧
    s = str "e2e" ++ mid ++ '.' :: reg ∧
    '\n' ∉ mid

/-! ## Concrete environments used to exhibit behaviours -/

/-- A fixed cutoff instant. -/
def t0 : GoTime := ⟨str "2026-01-01T00:00:00Z"⟩

/-- A delete outcome that plainly succeeds (HTTP 200, no errors). -/
def deleteOk : GroupsDeleteResult :=
  { callErr := none, respStatusCode := some 200, respErr := none }

/-- Environment: no activity events, deletes succeed, lookups resolve to no
address without error. -/
def cGood : Cleaner :=
  { activityLogsList := fun _ => .ok false
    groupsDelete := fun _ => deleteOk
    lookupHost := fun _ _ => { addresses := [], err := none }
    dnsRecordSetsDelete := fun _ _ _ _ _ => none }

/-- Environment: every activity query reports at least one event. -/
def cActivity : Cleaner :=
  { cGood with activityLogsList := fun _ => .ok true }

/-- Environment: every activity query fails. -/
def cQueryErr : Cleaner :=
  { cGood with activityLogsList := fun _ => .error (str "query throttled") }

/-- Environment: resource-group and DNS-record delete calls fail. -/
def cDeleteFail : Cleaner :=
  { cGood with
    groupsDelete := fun _ =>
      { callErr := some (str "delete failed"), respStatusCode := none,
        respErr := none }
    dnsRecordSetsDelete := fun _ _ _ _ _ => some (str "dns delete failed") }

/-- Environment: the delete responder reports HTTP 404 together with an
error value. -/
def c404 : Cleaner :=
  { cGood with
    groupsDelete := fun _ =>
      { callErr := none, respStatusCode := some httpStatusNotFound,
        respErr := some (str "resource group not found") } }

/-- Environment: every lookup fails with a non-SERVFAIL error. -/
def cLookupErr : Cleaner :=
  { cGood with
    lookupHost := fun _ _ =>
      { addresses := [], err := some (str "read udp 8.8.8.8:53: i/o timeout") } }

/-- Environment: every lookup fails with a SERVFAIL error and no address. -/
def cServfail : Cleaner :=
  { cGood with
    lookupHost := fun _ _ =>
      { addresses := [], err := some (str "dns lookup SERVFAIL") } }

/-- A record named after the `e2eterraform` convention. -/
def rTerraform : DnsRecord := ⟨str "e2eterraform-abc", str "etag-1"⟩

/-- A record matching the region regexp. -/
def rRegion : DnsRecord := ⟨str "e2eab.westeurope", str "etag-2"⟩

/-! ## Helper lemmas: resource-group reaper -/

/-- A test-named group with a quiet activity log is decided for deletion. -/
theorem groupShouldBeDeleted_of_quiet (c : Cleaner) (g : GoStr) (since : GoTime)
    (hpre : groupHasTestNamePrefix g = true)
    (hq : c.activityLogsList (activityFilter since g) = .ok false) :
    groupShouldBeDeleted c g since = .ok true := by
  simp [groupShouldBeDeleted, groupHasActivity, hpre, hq]

/-- A test-named group with a recent activity event is decided for keeping. -/
theorem groupShouldBeDeleted_of_activity (c : Cleaner) (g : GoStr) (since : GoTime)
    (hq : c.activityLogsList (activityFilter since g) = .ok true) :
    groupShouldBeDeleted c g since = .ok false := by
  by_cases hpre : groupHasTestNamePrefix g = true
  · simp [groupShouldBeDeleted, groupHasActivity, hpre, hq]
  · simp [groupShouldBeDeleted, hpre]

/-- A group decided as skip (error or keep) contributes nothing to the scan. -/
theorem cleanResourceGroup_cons_skip (c : Cleaner) (since : GoTime) (g : GoStr)
    (rest : List GoStr)
    (h : groupShouldBeDeleted c g since ≠ .ok true) :
    cleanResourceGroup c since (g :: rest) = cleanResourceGroup c since rest := by
  rcases hd : groupShouldBeDeleted c g since with e | b
  · simp [cleanResourceGroup, hd]
  · cases b
    · simp [cleanResourceGroup, hd]
    · exact absurd hd h

/-- If the scan over `g :: rest` finished without an error and `g` was decided
for deletion, the result is `g` consed onto the scan of `rest`. -/
theorem cleanResourceGroup_cons_delete (c : Cleaner) (since : GoTime) (g : GoStr)
    (rest : List GoStr)
    (hdel : groupShouldBeDeleted c g since = .ok true)
    (hdone : (cleanResourceGroup c since (g :: rest)).2 = none) :
    cleanResourceGroup c since (g :: rest) =
      (g :: (cleanResourceGroup c since rest).1,
        (cleanResourceGroup c since rest).2) := by
  rcases hc : (c.groupsDelete g).callErr with _ | e
  · by_cases h404 : (c.groupsDelete g).respStatusCode = some httpStatusNotFound
    · simp [cleanResourceGroup, hdel, hc, h404]
    · rcases hr : (c.groupsDelete g).respErr with _ | e
      · simp [cleanResourceGroup, hdel, hc, h404, hr]
      · simp [cleanResourceGroup, hdel, hc, h404, hr] at hdone
  · simp [cleanResourceGroup, hdel, hc] at hdone

/-- A group that is never decided for deletion never appears in the delete
trace, whatever the rest of the listing does. -/
theorem count_cleanResourceGroup_of_keep (c : Cleaner) (since : GoTime)
    (g : GoStr) (h : groupShouldBeDeleted c g since ≠ .ok true)
    (groups : List GoStr) :
    (cleanResourceGroup c since groups).1.count g = 0 := by
  induction groups with
  | nil => simp [cleanResourceGroup]
  | cons g' rest ih =>
    by_cases hg : g' = g
    · subst hg
      rw [cleanResourceGroup_cons_skip c since g' rest h]
      exact ih
    · rcases hd : groupShouldBeDeleted c g' since with e | b
      · rw [cleanResourceGroup_cons_skip c since g' rest (by simp [hd])]
        exact ih
      · cases b
        · rw [cleanResourceGroup_cons_skip c since g' rest (by simp [hd])]
          exact ih
        · rcases hc : (c.groupsDelete g').callErr with _ | e
          · by_cases h404 : (c.groupsDelete g').respStatusCode = some httpStatusNotFound
            · simpa [cleanResourceGroup, hd, hc, h404,
                List.count_cons_of_ne (fun he => hg he.symm)] using ih
            · rcases hr : (c.groupsDelete g').respErr with _ | e
              · simpa [cleanResourceGroup, hd, hc, h404, hr,
                  List.count_cons_of_ne (fun he => hg he.symm)] using ih
              · simp [cleanResourceGroup, hd, hc, h404, hr,
                  List.count_cons_of_ne (fun he => hg he.symm)]
          · simp [cleanResourceGroup, hd, hc,
              List.count_cons_of_ne (fun he => hg he.symm)]

/-- In a scan that finished without an error, a group decided for deletion is
deleted once per occurrence in the listing. -/
theorem count_cleanResourceGroup_of_delete (c : Cleaner) (since : GoTime)
    (g : GoStr) (hdel : groupShouldBeDeleted c g since = .ok true)
    (groups : List GoStr) :
    (cleanResourceGroup c since groups).2 = none →
    (cleanResourceGroup c since groups).1.count g = groups.count g := by
  induction groups with
  | nil => intro _; simp [cleanResourceGroup]
  | cons g' rest ih =>
    intro hdone
    by_cases hg : g' = g
    · subst hg
      have hstep := cleanResourceGroup_cons_delete c since g' rest hdel hdone
      rw [hstep] at hdone ⊢
      simp only [List.count_cons_self]
      exact congrArg (· + 1) (ih hdone)
    · rcases hd : groupShouldBeDeleted c g' since with e | b
      · rw [cleanResourceGroup_cons_skip c since g' rest (by simp [hd])] at hdone ⊢
        rw [ih hdone, List.count_cons_of_ne (fun he => hg he.symm)]
      · cases b
        · rw [cleanResourceGroup_cons_skip c since g' rest (by simp [hd])] at hdone ⊢
          rw [ih hdone, List.count_cons_of_ne (fun he => hg he.symm)]
        · have hstep := cleanResourceGroup_cons_delete c since g' rest hd hdone
          rw [hstep] at hdone ⊢
          rw [List.count_cons_of_ne (fun he => hg he.symm),
            List.count_cons_of_ne (fun he => hg he.symm), ih hdone]

/-! ## Helper lemmas: DNS reaper -/

/-- The probe reports "does not resolve" without error exactly when the
lookup returned no address and any lookup error was a SERVFAIL. -/
theorem resolvesApiName_eq_ok_false_iff (c : Cleaner) (n : GoStr) :
    resolvesApiName c n = .ok false ↔
      (c.lookupHost defaultResolver (apiHostName n)).addresses = [] ∧
      ∀ e, (c.lookupHost defaultResolver (apiHostName n)).err = some e →
        strContains e dnsFailureError = true := by
  unfold resolvesApiName
  rcases he : (c.lookupHost defaultResolver (apiHostName n)).err with _ | e
  · simp [he, List.length_eq_zero]
  · by_cases hs : strContains e dnsFailureError = true
    · simp [he, hs, List.length_eq_zero]
    · simp [he, hs]

/-- The probe errors exactly when the lookup errored with a non-SERVFAIL
message. -/
theorem resolvesApiName_eq_error_iff (c : Cleaner) (n : GoStr) (e : GoStr) :
    resolvesApiName c n = .error e ↔
      (c.lookupHost defaultResolver (apiHostName n)).err = some e ∧
      strContains e dnsFailureError = false := by
  unfold resolvesApiName
  rcases he : (c.lookupHost defaultResolver (apiHostName n)).err with _ | e'
  · simp [he]
  · by_cases hs : strContains e' dnsFailureError = true
    · simp [he, hs]
      intro h
      rwa [h] at hs
    · simp only [Bool.not_eq_true] at hs
      simp [he, hs, Except.error.injEq]
      rintro rfl
      exact hs

/-- The decision to delete a DNS record, unfolded: the record is name-eligible
and the probe reported "does not resolve". -/
theorem dnsRecordShouldBeDeleted_eq_ok_true_iff (c : Cleaner) (r : DnsRecord)
    (since : GoTime) :
    dnsRecordShouldBeDeleted c r since = .ok true ↔
      isCIRecord r.name = true ∧ resolvesApiName c r.name = .ok false := by
  unfold dnsRecordShouldBeDeleted
  by_cases hci : isCIRecord r.name = true
  · rcases hr : resolvesApiName c r.name with e | b
    · simp [hci, hr]
    · cases b <;> simp [hci, hr]
  · simp only [Bool.not_eq_true] at hci
    simp [hci]

/-- A resolution error makes the decision "keep", with a nil error. -/
theorem dnsRecordShouldBeDeleted_of_resolveError (c : Cleaner) (r : DnsRecord)
    (since : GoTime) (e : GoStr) (herr : resolvesApiName c r.name = .error e) :
    dnsRecordShouldBeDeleted c r since = .ok false := by
  unfold dnsRecordShouldBeDeleted
  by_cases hci : isCIRecord r.name = true
  · simp [hci, herr]
  · simp only [Bool.not_eq_true] at hci
    simp [hci]

/-- `dnsRecordShouldBeDeleted` never returns an error: every failure of the
probe is swallowed into the "keep" decision. -/
theorem dnsRecordShouldBeDeleted_ne_error (c : Cleaner) (r : DnsRecord)
    (since : GoTime) (e : GoStr) :
    dnsRecordShouldBeDeleted c r since ≠ .error e := by
  unfold dnsRecordShouldBeDeleted
  by_cases hci : isCIRecord r.name = true
  · rcases hr : resolvesApiName c r.name with e' | b
    · simp [hci, hr]
    · simp [hci, hr]
  · simp only [Bool.not_eq_true] at hci
    simp [hci]

/-- Membership in the DNS delete trace: a name got a delete call exactly when
some listed record carries it and was decided for deletion.  Holds for every
value of the threaded `lastError`. -/
theorem mem_cleanDelegateDNSRecordsGo_iff (c : Cleaner) (since : GoTime)
    (name : GoStr) (records : List DnsRecord) :
    ∀ lastError,
      (name ∈ (cleanDelegateDNSRecordsGo c since records lastError).1 ↔
        ∃ r ∈ records, r.name = name ∧
          dnsRecordShouldBeDeleted c r since = .ok true) := by
  induction records with
  | nil => intro lastError; simp [cleanDelegateDNSRecordsGo]
  | cons r rest ih =>
    intro lastError
    rcases hd : dnsRecordShouldBeDeleted c r since with e | b
    · simp only [cleanDelegateDNSRecordsGo, hd]
      rw [ih]
      constructor
      · rintro ⟨r', hr', hn, hdel⟩
        exact ⟨r', List.mem_cons_of_mem _ hr', hn, hdel⟩
      · rintro ⟨r', hr', hn, hdel⟩
        rcases List.mem_cons.mp hr' with rfl | hr'
        · rw [hd] at hdel; cases hdel
        · exact ⟨r', hr', hn, hdel⟩
    · cases b
      · simp only [cleanDelegateDNSRecordsGo, hd]
        rw [ih]
        constructor
        · rintro ⟨r', hr', hn, hdel⟩
          exact ⟨r', List.mem_cons_of_mem _ hr', hn, hdel⟩
        · rintro ⟨r', hr', hn, hdel⟩
          rcases List.mem_cons.mp hr' with rfl | hr'
          · rw [hd] at hdel; cases hdel
          · exact ⟨r', hr', hn, hdel⟩
      · rcases he : deleteRecord c r with _ | e
        · simp only [cleanDelegateDNSRecordsGo, hd, he, List.mem_cons]
          rw [ih]
          constructor
          · rintro (rfl | ⟨r', hr', hn, hdel⟩)
            · exact ⟨r, Or.inl rfl, rfl, hd⟩
            · exact ⟨r', Or.inr hr', hn, hdel⟩
          · rintro ⟨r', hr', hn, hdel⟩
            rcases hr' with rfl | hr'
            · exact Or.inl hn.symm
            · exact Or.inr ⟨r', hr', hn, hdel⟩
        · simp only [cleanDelegateDNSRecordsGo, hd, he, List.mem_cons]
          rw [ih]
          constructor
          · rintro (rfl | ⟨r', hr', hn, hdel⟩)
            · exact ⟨r, Or.inl rfl, rfl, hd⟩
            · exact ⟨r', Or.inr hr', hn, hdel⟩
          · rintro ⟨r', hr', hn, hdel⟩
            rcases hr' with rfl | hr'
            · exact Or.inl hn.symm
            · exact Or.inr ⟨r', hr', hn, hdel⟩

/-! ## Helper lemmas: the name regexp -/

/-- `List.isPrefixOf`, read as an explicit decomposition. -/
theorem isPrefixOf_iff_exists_append (l s : GoStr) :
    l.isPrefixOf s = true ↔ ∃ t, s = l ++ t := by
  rw [ List.isPrefixOf_iff_prefix]
  constructor
  · rintro ⟨t, rfl⟩
    exact ⟨t, rfl⟩
  · rintro ⟨t, rfl⟩
    exact ⟨t, rfl⟩

/-- Correctness of the tail matcher: it accepts exactly the strings made of
newline-free text, a dot, and one of the two region names. -/
theorem matchDotStarRegion_iff (l : GoStr) :
    matchDotStarRegion l = true ↔
      ∃ mid reg : GoStr,
        (reg = str "westeurope" ∨ reg = str "germanywestcentral") ∧
        l = mid ++ '.' :: reg ∧ '\n' ∉ mid := by
  induction l with
  | nil =>
    simp only [matchDotStarRegion, Bool.false_eq_true, false_iff, not_exists]
    intro mid reg
    rintro ⟨_, hl, _⟩
    cases mid <;> simp at hl
  | cons c rest ih =>
    simp only [matchDotStarRegion, Bool.or_eq_true, Bool.and_eq_true,
      decide_eq_true_eq]
    constructor
    · rintro ((h | h) | ⟨hc, hm⟩)
      · refine ⟨[], str "westeurope", Or.inl rfl, ?_, by simp⟩
        rw [h]
        decide
      · refine ⟨[], str "germanywestcentral", Or.inr rfl, ?_, by simp⟩
        rw [h]
        decide
      · obtain ⟨mid, reg, hreg, hl, hnl⟩ := ih.mp hm
        refine ⟨c :: mid, reg, hreg, ?_, ?_⟩
        · rw [List.cons_append, ← hl]
        · intro hmem
          rcases List.mem_cons.mp hmem with hcc | hmid
          · exact hc hcc.symm
          · exact hnl hmid
    · rintro ⟨mid, reg, hreg, hl, hnl⟩
      cases mid with
      | nil =>
        rcases hreg with rfl | rfl
        · exact Or.inl (Or.inl (by rw [hl]; decide))
        · exact Or.inl (Or.inr (by rw [hl]; decide))
      | cons m mid' =>
        rw [List.cons_append] at hl
        injection hl with hcm hrest
        subst hcm
        refine Or.inr ⟨fun hc => hnl (hc ▸ List.mem_cons_self c mid'), ?_⟩
        exact ih.mpr ⟨mid', reg, hreg, hrest, fun hm => hnl (List.mem_cons_of_mem _ hm)⟩

/-- Correctness of the embedded regexp match for
`^e2e.*\.(westeurope|germanywestcentral)$`. -/
theorem regexpMatchCIRecord_iff (s : GoStr) :
    regexpMatchCIRecord s = true ↔ MatchesE2ERegex s := by
  unfold regexpMatchCIRecord MatchesE2ERegex
  constructor
  · intro h
    obtain ⟨hpre, hm⟩ := Bool.and_eq_true_iff.mp h
    obtain ⟨t, rfl⟩ := (isPrefixOf_iff_exists_append _ _).mp hpre
    have h3 : (str "e2e" ++ t).drop 3 = t := List.drop_left (str "e2e") t
    rw [h3] at hm
    obtain ⟨mid, reg, hreg, rfl, hnl⟩ := (matchDotStarRegion_iff t).mp hm
    exact ⟨mid, reg, hreg, by rw [List.append_assoc], hnl⟩
  · rintro ⟨mid, reg, hreg, rfl, hnl⟩
    apply Bool.and_eq_true_iff.mpr
    rw [List.append_assoc]
    constructor
    · exact (isPrefixOf_iff_exists_append _ _).mpr ⟨mid ++ '.' :: reg, rfl⟩
    · have h3 : (str "e2e" ++ (mid ++ '.' :: reg)).drop 3 = mid ++ '.' :: reg :=
        List.drop_left (str "e2e") (mid ++ '.' :: reg)
      rw [h3]
      exact (matchDotStarRegion_iff _).mpr ⟨mid, reg, hreg, rfl, hnl⟩

/-! ## Claims -/

/-- C1: for a resource group whose name has an eligible prefix (`ci-` or
`e2e`): if the activity-log query for events since the cutoff and that
group's name reports zero events, the group is deleted exactly once during a
pass that runs to completion (the listing lists it once); if the query
reports at least one event, the group is kept — it never receives a delete
call. -/
theorem claim_C1 (c : Cleaner) (since : GoTime) (g : GoStr)
    (groups : List GoStr) (hpre : groupHasTestNamePrefix g = true) :
    (c.activityLogsList (activityFilter since g) = .ok false →
      (cleanResourceGroup c since groups).2 = none →
      groups.count g = 1 →
      (cleanResourceGroup c since groups).1.count g = 1) ∧
    (c.activityLogsList (activityFilter since g) = .ok true →
      (cleanResourceGroup c since groups).1.count g = 0) := by
  constructor
  · intro hq hdone hcount
    rw [count_cleanResourceGroup_of_delete c since g
      (groupShouldBeDeleted_of_quiet c g since hpre hq) groups hdone, hcount]
  · intro hq
    exact count_cleanResourceGroup_of_keep c since g
      (by rw [groupShouldBeDeleted_of_activity c g since hq]; simp) groups

/-- Witness for C1: a quiet `ci-` group is deleted once; an active one is
kept. -/
theorem claim_C1_witness :
    (cleanResourceGroup cGood t0 [str "ci-a"]).1.count (str "ci-a") = 1 ∧
    (cleanResourceGroup cActivity t0 [str "ci-a"]).1.count (str "ci-a") = 0 :=
  ⟨(claim_C1 cGood t0 (str "ci-a") [str "ci-a"] (by decide)).1 rfl rfl rfl,
   (claim_C1 cActivity t0 (str "ci-a") [str "ci-a"] (by decide)).2 rfl⟩

/-- C4: a failed resource-group delete call aborts the whole scan at once,
propagating the error and leaving the remaining groups unvisited, whereas a
failed DNS-record delete is only recorded: the DNS scan continues with the
remaining records and the pass returns the last-seen error at the end. -/
theorem claim_C4 :
    (∀ (c : Cleaner) (since : GoTime) (g : GoStr) (rest : List GoStr)
      (e : GoStr),
      groupShouldBeDeleted c g since = .ok true →
      (c.groupsDelete g).callErr = some e →
      cleanResourceGroup c since (g :: rest) = ([g], some e)) ∧
    (∀ (c : Cleaner) (since : GoTime) (r : DnsRecord) (rest : List DnsRecord)
      (lastError : Option GoStr) (e : GoStr),
      dnsRecordShouldBeDeleted c r since = .ok true →
      deleteRecord c r = some e →
      cleanDelegateDNSRecordsGo c since (r :: rest) lastError =
        (r.name :: (cleanDelegateDNSRecordsGo c since rest (some e)).1,
          (cleanDelegateDNSRecordsGo c since rest (some e)).2) ∧
      cleanDelegateDNSRecords c since [r] = ([r.name], some e)) := by
  constructor
  · intro c since g rest e hdel hc
    simp [cleanResourceGroup, hdel, hc]
  · intro c since r rest lastError e hdel he
    constructor
    · simp [cleanDelegateDNSRecordsGo, hdel, he]
    · simp [cleanDelegateDNSRecords, cleanDelegateDNSRecordsGo, hdel, he]

/-- Witness for C4: with failing deletes, the group scan aborts with the
error while the DNS scan still returns it only at the end of the pass. -/
theorem claim_C4_witness :
    cleanResourceGroup cDeleteFail t0 [str "ci-a"] =
      ([str "ci-a"], some (str "delete failed")) ∧
    cleanDelegateDNSRecords cDeleteFail t0 [rTerraform] =
      ([rTerraform.name], some (str "dns delete failed")) :=
  ⟨claim_C4.1 cDeleteFail t0 (str "ci-a") [] (str "delete failed") rfl rfl,
   (claim_C4.2 cDeleteFail t0 rTerraform [] none
     (str "dns delete failed") rfl rfl).2⟩

/-- C5: a delete responder reporting HTTP 404 is treated as success — no
error is propagated from that delete and the scan continues with the rest of
the groups — even when the responder also carries an error value. -/
theorem claim_C5 (c : Cleaner) (since : GoTime) (g : GoStr)
    (rest : List GoStr)
    (hdel : groupShouldBeDeleted c g since = .ok true)
    (hcall : (c.groupsDelete g).callErr = none)
    (h404 : (c.groupsDelete g).respStatusCode = some httpStatusNotFound) :
    cleanResourceGroup c since (g :: rest) =
      (g :: (cleanResourceGroup c since rest).1,
        (cleanResourceGroup c since rest).2) := by
  simp [cleanResourceGroup, hdel, hcall, h404]

/-- Witness for C5: a 404 delete responder, with an error value attached,
still lets the scan finish with a nil error. -/
theorem claim_C5_witness :
    cleanResourceGroup c404 t0 [str "ci-a"] = ([str "ci-a"], none) := by
  rw [claim_C5 c404 t0 (str "ci-a") [] rfl rfl rfl]
  rfl

/-- C8: a group whose name has no `ci-`/`e2e` prefix is decided as keep
whatever the activity oracle does (the activity log is never consulted for
it), and it never appears in the delete trace of any scan. -/
theorem claim_C8 (g : GoStr) (h : groupHasTestNamePrefix g = false) :
    (∀ (c : Cleaner) (since : GoTime),
      groupShouldBeDeleted c g since = .ok false) ∧
    (∀ (c : Cleaner) (since : GoTime) (groups : List GoStr),
      (cleanResourceGroup c since groups).1.count g = 0) := by
  have hdec : ∀ (c : Cleaner) (since : GoTime),
      groupShouldBeDeleted c g since = .ok false := by
    intro c since
    simp [groupShouldBeDeleted, h]
  refine ⟨hdec, fun c since groups => ?_⟩
  exact count_cleanResourceGroup_of_keep c since g
    (by rw [hdec c since]; simp) groups

/-- Witness for C8: `prod-shared` is never deleted even with a quiet
activity log. -/
theorem claim_C8_witness :
    (cleanResourceGroup cGood t0 [str "prod-shared"]).1.count
      (str "prod-shared") = 0 :=
  (claim_C8 (str "prod-shared") (by decide)).2 cGood t0 [str "prod-shared"]

/-- C9: when the activity-log query for a test-named group fails, the
decision propagates the error, and the scan skips that group without
deleting it and continues with the remaining groups unchanged. -/
theorem claim_C9 (c : Cleaner) (since : GoTime) (g e : GoStr)
    (hpre : groupHasTestNamePrefix g = true)
    (hq : c.activityLogsList (activityFilter since g) = .error e) :
    groupShouldBeDeleted c g since = .error e ∧
    ∀ rest, cleanResourceGroup c since (g :: rest) =
      cleanResourceGroup c since rest := by
  have hdec : groupShouldBeDeleted c g since = .error e := by
    simp [groupShouldBeDeleted, groupHasActivity, hpre, hq]
  exact ⟨hdec,
    fun rest => cleanResourceGroup_cons_skip c since g rest (by simp [hdec])⟩

/-- Witness for C9: a failing activity query leaves the group alone and the
scan ends with a nil error. -/
theorem claim_C9_witness :
    groupShouldBeDeleted cQueryErr (str "ci-a") t0 =
      .error (str "query throttled") ∧
    cleanResourceGroup cQueryErr t0 [str "ci-a"] = ([], none) := by
  have h := claim_C9 cQueryErr t0 (str "ci-a") (str "query throttled")
    (by decide) rfl
  exact ⟨h.1, by rw [h.2 []]; rfl⟩

/-- C10: the DNS-record deletion decision does not depend on the cutoff
instant: the `since` argument is ignored, only the name filter and the
resolution probe matter. -/
theorem claim_C10 (c : Cleaner) (r : DnsRecord) (s₁ s₂ : GoTime) :
    dnsRecordShouldBeDeleted c r s₁ = dnsRecordShouldBeDeleted c r s₂ := rfl

/-- C2: in a DNS pass, a listed record receives a delete call exactly when
its name is eligible per `isCIRecord` and resolving
`api.<record-name>.azure.gigantic.io` reported zero addresses (the lookup
returned no address and any lookup error was the expected SERVFAIL — a
lookup failing otherwise is the "kept" side, per C3/C7); otherwise it is
kept. -/
theorem claim_C2 (c : Cleaner) (since : GoTime) (records : List DnsRecord)
    (r : DnsRecord) (hr : r ∈ records) :
    r.name ∈ (cleanDelegateDNSRecords c since records).1 ↔
      (isCIRecord r.name = true ∧
        (c.lookupHost defaultResolver (apiHostName r.name)).addresses = [] ∧
        ∀ e, (c.lookupHost defaultResolver (apiHostName r.name)).err = some e →
          strContains e dnsFailureError = true) := by
  unfold cleanDelegateDNSRecords
  rw [mem_cleanDelegateDNSRecordsGo_iff]
  constructor
  · rintro ⟨r', _, hn, hdel⟩
    rw [dnsRecordShouldBeDeleted_eq_ok_true_iff, hn,
      resolvesApiName_eq_ok_false_iff] at hdel
    exact ⟨hdel.1, hdel.2⟩
  · intro h
    refine ⟨r, hr, rfl, ?_⟩
    rw [dnsRecordShouldBeDeleted_eq_ok_true_iff,
      resolvesApiName_eq_ok_false_iff]
    exact ⟨h.1, h.2⟩

/-- Witness for C2: an eligible region record whose API name yields no
address is deleted. -/
theorem claim_C2_witness :
    rRegion.name ∈ (cleanDelegateDNSRecords cGood t0 [rRegion]).1 :=
  (claim_C2 cGood t0 [rRegion] rRegion (by simp)).mpr
    ⟨by decide, rfl, fun e h => Option.noConfusion h⟩

/-- C3 as stated fails on the code: for a record whose probe fails with a
non-SERVFAIL error, the record is indeed kept, but `dnsRecordShouldBeDeleted`
swallows the error (returns a nil error after logging the warning), so the
resolution error is never stored in `lastError`: the full pass returns nil,
not the resolution error. -/
theorem claim_C3_counterexample :
    resolvesApiName cLookupErr rTerraform.name =
      .error (str "read udp 8.8.8.8:53: i/o timeout") ∧
    dnsRecordShouldBeDeleted cLookupErr rTerraform t0 = .ok false ∧
    cleanDelegateDNSRecords cLookupErr t0 [rTerraform] = ([], none) :=
  ⟨rfl, rfl, rfl⟩

/-- C3 amended: a record whose resolution probe fails with a non-SERVFAIL
error is kept (decision "keep" with a nil error, after a warning is logged),
and the pass is exactly as if the record were absent: the error is not
recorded as the pass's last error and is not returned to the caller. -/
theorem claim_C3_amended (c : Cleaner) (r : DnsRecord) (since : GoTime)
    (e : GoStr) (hci : isCIRecord r.name = true)
    (herr : resolvesApiName c r.name = .error e) :
    dnsRecordShouldBeDeleted c r since = .ok false ∧
    ∀ records lastError,
      cleanDelegateDNSRecordsGo c since (r :: records) lastError =
        cleanDelegateDNSRecordsGo c since records lastError := by
  have hdec := dnsRecordShouldBeDeleted_of_resolveError c r since e herr
  refine ⟨hdec, fun records lastError => ?_⟩
  simp [cleanDelegateDNSRecordsGo, hdec]

/-- Witness for C3 amended, at the same concrete input as the
counterexample. -/
theorem claim_C3_amended_witness :
    dnsRecordShouldBeDeleted cLookupErr rTerraform t0 = .ok false ∧
    cleanDelegateDNSRecordsGo cLookupErr t0 [rTerraform] none =
      cleanDelegateDNSRecordsGo cLookupErr t0 [] none := by
  have h := claim_C3_amended cLookupErr rTerraform t0
    (str "read udp 8.8.8.8:53: i/o timeout") (by decide) rfl
  exact ⟨h.1, h.2 [] none⟩

/-- C6: `isCIRecord s` holds exactly when `s` starts with `e2eterraform` or
matches the anchored pattern `^e2e.*\.(westeurope|germanywestcentral)$`,
formalised independently as `MatchesE2ERegex`. -/
theorem claim_C6 (s : GoStr) :
    isCIRecord s = true ↔
      (∃ t, s = str "e2eterraform" ++ t) ∨ MatchesE2ERegex s := by
  unfold isCIRecord
  by_cases hpre : e2eterraformPrefix.isPrefixOf s = true
  · simp only [hpre, if_true, true_iff]
    exact Or.inl ((isPrefixOf_iff_exists_append _ _).mp hpre)
  · simp only [Bool.not_eq_true] at hpre
    simp only [hpre, Bool.false_eq_true, if_false]
    rw [regexpMatchCIRecord_iff]
    constructor
    · exact Or.inr
    · rintro (⟨t, rfl⟩ | hm)
      · have : e2eterraformPrefix.isPrefixOf (str "e2eterraform" ++ t) = true :=
          (isPrefixOf_iff_exists_append _ _).mpr ⟨t, rfl⟩
        rw [hpre] at this
        cases this
      · exact hm

/-- C7: a SERVFAIL lookup error behaves as a zero-address result — the probe
reports "does not resolve" with a nil error and an otherwise name-eligible
record is decided for deletion — while a lookup error that is not a SERVFAIL
makes the record be kept. -/
theorem claim_C7 :
    (∀ (c : Cleaner) (r : DnsRecord) (since : GoTime) (e : GoStr),
      (c.lookupHost defaultResolver (apiHostName r.name)).err = some e →
      strContains e dnsFailureError = true →
      (c.lookupHost defaultResolver (apiHostName r.name)).addresses = [] →
      resolvesApiName c r.name = .ok false ∧
      (isCIRecord r.name = true →
        dnsRecordShouldBeDeleted c r since = .ok true)) ∧
    (∀ (c : Cleaner) (r : DnsRecord) (since : GoTime) (e : GoStr),
      (c.lookupHost defaultResolver (apiHostName r.name)).err = some e →
      strContains e dnsFailureError = false →
      dnsRecordShouldBeDeleted c r since = .ok false) := by
  constructor
  · intro c r since e he hs ha
    have hres : resolvesApiName c r.name = .ok false := by
      refine (resolvesApiName_eq_ok_false_iff c r.name).mpr ⟨ha, ?_⟩
      intro e' he'
      rw [he] at he'
      injection he' with h
      subst h
      exact hs
    exact ⟨hres, fun hci =>
      (dnsRecordShouldBeDeleted_eq_ok_true_iff c r since).mpr ⟨hci, hres⟩⟩
  · intro c r since e he hs
    exact dnsRecordShouldBeDeleted_of_resolveError c r since e
      ((resolvesApiName_eq_error_iff c r.name e).mpr ⟨he, hs⟩)

/-- Witness for C7: a SERVFAIL error deletes an eligible record, a timeout
keeps it. -/
theorem claim_C7_witness :
    resolvesApiName cServfail rRegion.name = .ok false ∧
    dnsRecordShouldBeDeleted cServfail rRegion t0 = .ok true ∧
    dnsRecordShouldBeDeleted cLookupErr rRegion t0 = .ok false := by
  have ha := claim_C7.1 cServfail rRegion t0 (str "dns lookup SERVFAIL")
    rfl (by decide) rfl
  have hb := claim_C7.2 cLookupErr rRegion t0
    (str "read udp 8.8.8.8:53: i/o timeout") rfl (by decide)
  exact ⟨ha.1, ha.2 (by decide), hb⟩

end AzureCleaner
